import Mathlib

/-
Verification of the exam seat-allocation program (proj1.py).

The core of the program is `main`: it loads enrollment, schedule and room
tables, asks for a seat margin and an arrangement mode (defaulting any
unrecognized mode to dense), builds two room pools (Block 9, sorted
ascending by room number; LT block, sorted descending by exam capacity),
and then, for every schedule row and each of the Morning/Evening session
cells, ranks the session's courses by enrollment count descending, walks
the two pools computing per-room allocation counts, and finally emits one
seating-plan row per allocation record whose course appears in the
enrollment table, consuming the course's roster front-to-back.

Everything below is a direct shallow embedding of that code: Python ints
are Int/Nat, pandas rows are structure values, the mutable
course_to_students dict is an explicit association list threaded through
the run, and the implicit None return of compute_max_capacity is the
retNone outcome.
-/

/-- Outcome of calling a Python function: a returned value, the implicit
None returned when control falls off the end of the body, or a raised
exception (by exception-class name). -/
inductive PyOutcome (α : Type) where
  | ret : α → PyOutcome α
  | retNone : PyOutcome α
  | raise : String → PyOutcome α
  deriving DecidableEq, Repr

/-- Embedding of compute_max_capacity (proj1.py lines 7-14).  The body is
an if/elif with no else branch and no raise statement, so an unrecognized
mode falls through and returns None. -/
def compute_max_capacity (room_size : Nat) (arrangement_mode : String) (seat_margin : Int) : PyOutcome Int :=
  if arrangement_mode = "dense" then
    PyOutcome.ret (max 0 ((room_size : Int) - seat_margin))
  else if arrangement_mode = "sparse" then
    PyOutcome.ret (max 1 (((room_size / 2 : Nat) : Int) - seat_margin))
  else
    PyOutcome.retNone

/-- The two recognized arrangement modes.  After main's input validation
(lines 66-68) the mode string is always one of these two. -/
inductive Mode where
  | dense : Mode
  | sparse : Mode
  deriving DecidableEq, Repr

/-- The mode's string as used in the Python source. -/
def Mode.str : Mode → String
  | Mode.dense => "dense"
  | Mode.sparse => "sparse"

/-- Embedding of main's mode validation (lines 66-68): any input other
than dense/sparse is defaulted to dense (with a printed warning). -/
def normalize_mode (s : String) : Mode :=
  if s = "dense" then Mode.dense
  else if s = "sparse" then Mode.sparse
  else Mode.dense

/-- The value compute_max_capacity returns on a recognized mode; the
allocation loop only ever calls it with the validated mode. -/
def usable_capacity (mode : Mode) (room_size : Nat) (seat_margin : Int) : Int :=
  match mode with
  | Mode.dense => max 0 ((room_size : Int) - seat_margin)
  | Mode.sparse => max 1 (((room_size / 2 : Nat) : Int) - seat_margin)

/-- Value of the Block column of the room catalog: a numeric block id or
the literal LT. -/
inductive Block where
  | bnum : Int → Block
  | bLT : Block
  deriving DecidableEq, Repr

/-- One row of the room catalog (sheet ip_3): Block, Room No., Exam
Capacity. -/
structure Room where
  block : Block
  roomNo : Nat
  examCapacity : Nat
  deriving DecidableEq, Repr

/-- One row of the schedule table (sheet ip_2): a date and the optional
Morning/Evening course-list cells (None models a NaN cell; a present cell
is the raw semicolon-separated string). -/
structure ScheduleRow where
  date : String
  morning : Option String
  evening : Option String
  deriving DecidableEq, Repr

/-- One record of assigned_rooms / allocation_plan (lines 120, 130):
course code, room number, allocation count. -/
structure AllocRec where
  course_code : String
  room : Nat
  allocated : Int
  deriving DecidableEq, Repr

/-- One row of the final seating_plan dataframe (lines 146-153).  The
students field holds the list of roll numbers that line 144 joins with
"; " into the Students cell. -/
structure Assignment where
  date : String
  session : String
  course_code : String
  room : Nat
  allocated_students : Int
  students : List String
  deriving DecidableEq, Repr

/-- First-occurrence deduplication, mirroring Python dict-comprehension
key semantics (line 100: duplicate course codes in a session cell produce
a single dict entry at the first position). -/
def dedupFirstAux (seen : List String) : List String → List String
  | [] => []
  | c :: cs =>
    if c ∈ seen then dedupFirstAux seen cs
    else c :: dedupFirstAux (c :: seen) cs

def dedupFirst (l : List String) : List String := dedupFirstAux [] l

/-- Distinct course codes of the enrollment table, i.e. the keys of the
groupby on course_code (lines 80-82). -/
def courseCodes (recs : List (String × String)) : List String :=
  dedupFirst (recs.map (fun r => r.1))

/-- Per-course enrollment count: the groupby count of line 80. -/
def countEnrolled (recs : List (String × String)) (c : String) : Nat :=
  (recs.filter (fun r => r.1 = c)).length

/-- Per-course roster in original row order: the groupby apply-list of
line 82. -/
def courseRoster (recs : List (String × String)) (c : String) : List String :=
  (recs.filter (fun r => r.1 = c)).map (fun r => r.2)

/-- The student count used for a session course (lines 100-104): the
static enrollment-table count, or 0 when the course code is absent from
the enrollment table. -/
def pendingCount (recs : List (String × String)) (c : String) : Int :=
  if c ∈ courseCodes recs then (countEnrolled recs c : Int) else 0

/-- The mutable course_to_students dict: course code to remaining roster.
Keys are created once at load time and never removed. -/
abbrev Ledger := List (String × List String)

def ledgerLookup (c : String) : Ledger → Option (List String)
  | [] => none
  | e :: rest => if e.1 = c then some e.2 else ledgerLookup c rest

/-- Replacing a course's remaining roster by its tail after a slice of k
students (line 142). -/
def ledgerUpdate (c : String) (k : Nat) (L : Ledger) : Ledger :=
  L.map (fun e => if e.1 = c then (e.1, e.2.drop k) else e)

/-- Initial course_to_students (line 82). -/
def initLedger (recs : List (String × String)) : Ledger :=
  (courseCodes recs).map (fun c => (c, courseRoster recs c))

/-- Remaining roster of a course, empty when the key is absent. -/
def rosterOf (L : Ledger) (c : String) : List String :=
  (ledgerLookup c L).getD []

/-- Embedding of one room-pool loop for one course (lines 113-120 and
123-130): walk the rooms in order; break as soon as remaining students is
nonpositive; otherwise allocate min(computed capacity, remaining),
decrement remaining, and append a record.  Nothing about the room is
mutated: the capacity is recomputed from the immutable catalog row each
time.  Returns the records and the final remaining count. -/
def allocRooms (c : String) (mode : Mode) (margin : Int) : List Room → Int → List AllocRec × Int
  | [], rem => ([], rem)
  | r :: rs, rem =>
    if rem ≤ 0 then ([], rem)
    else
      let cap := usable_capacity mode r.examCapacity margin
      let cnt := min cap rem
      let next := allocRooms c mode margin rs (rem - cnt)
      (⟨c, r.roomNo, cnt⟩ :: next.1, next.2)

/-- One course's assigned_rooms (lines 108-130): Block 9 pool first, then
the LT pool with the remaining count carried over. -/
def allocCourse (c : String) (mode : Mode) (margin : Int) (block9 lt : List Room) (n : Int) : List AllocRec :=
  let p := allocRooms c mode margin block9 n
  let q := allocRooms c mode margin lt p.2
  p.1 ++ q.1

/-- allocation_plan built over a list of (course, count) pairs in order
(lines 107-132). -/
def plansFor (mode : Mode) (margin : Int) (block9 lt : List Room) : List (String × Int) → List AllocRec
  | [] => []
  | p :: rest => allocCourse p.1 mode margin block9 lt p.2 ++ plansFor mode margin block9 lt rest

/-- A session's allocation_plan from its course/count table (lines
105-132): sort descending by count (Python sorted with reverse=True is
stable, as is insertionSort with this relation, and a stable sort under a
total preorder is unique), then allocate each course in that order. -/
def sessionAllocationPlan (mode : Mode) (margin : Int) (block9 lt : List Room)
    (counts : List (String × Int)) : List AllocRec :=
  plansFor mode margin block9 lt
    (List.insertionSort (fun a b : String × Int => b.2 ≤ a.2) counts)

/-- Character-level splitter for the session cell: scans left to right
for the two-character separator of semicolon and space, exactly the
non-overlapping greedy scan of Python str.split.  Written structurally so
that concrete runs reduce inside the kernel. -/
def splitCellAux : List Char → List Char → List (List Char)
  | acc, [] => [acc.reverse]
  | acc, ';' :: ' ' :: rest => acc.reverse :: splitCellAux [] rest
  | acc, c :: rest => splitCellAux (c :: acc) rest

/-- Embedding of the cell split of line 99: session_info cell split on
semicolon-space. -/
def splitCell (s : String) : List String :=
  (splitCellAux [] s.data).map (fun l => String.mk l)

/-- A session's allocation_plan from the raw schedule cell (lines
99-132): split the cell on the separator, build the per-course counts
with dict-comprehension key semantics, and allocate. -/
def sessionPlan (enroll : List (String × String)) (mode : Mode) (margin : Int)
    (block9 lt : List Room) (cell : String) : List AllocRec :=
  sessionAllocationPlan mode margin block9 lt
    ((dedupFirst (splitCell cell)).map (fun c => (c, pendingCount enroll c)))

/-- Embedding of the seating-plan update loop (lines 135-153): for each
allocation record whose course is a key of course_to_students, slice the
allocated count off the front of the remaining roster and append one
seating-plan row; records of unknown courses are skipped silently. -/
def emitPlan (d s : String) : List AllocRec → Ledger → List Assignment × Ledger
  | [], L => ([], L)
  | rec :: rest, L =>
    match ledgerLookup rec.course_code L with
    | none => emitPlan d s rest L
    | some roster =>
      let k := rec.allocated.toNat
      let next := emitPlan d s rest (ledgerUpdate rec.course_code k L)
      (⟨d, s, rec.course_code, rec.room, rec.allocated, roster.take k⟩ :: next.1, next.2)

/-- One (date, session) slot (lines 96-153): a NaN cell is skipped,
otherwise the allocation plan is built and emitted. -/
def processSession (enroll : List (String × String)) (mode : Mode) (margin : Int)
    (block9 lt : List Room) (d s : String) (cell : Option String) (L : Ledger) :
    List Assignment × Ledger :=
  match cell with
  | none => ([], L)
  | some cellStr => emitPlan d s (sessionPlan enroll mode margin block9 lt cellStr) L

/-- The batch loop over schedule rows (lines 93-153), Morning then
Evening per row, threading the course_to_students state and accumulating
the seating plan in order. -/
def runSessions (enroll : List (String × String)) (mode : Mode) (margin : Int)
    (block9 lt : List Room) : List ScheduleRow → Ledger → List Assignment × Ledger
  | [], L => ([], L)
  | row :: rest, L =>
    let m := processSession enroll mode margin block9 lt row.date ("Morning") row.morning L
    let e := processSession enroll mode margin block9 lt row.date ("Evening") row.evening m.2
    let r := runSessions enroll mode margin block9 lt rest e.2
    (m.1 ++ e.1 ++ r.1, r.2)

/-- Block 9 pool (line 86): rooms of block 9, sorted ascending by room
number.  pandas sort_values is modelled by a stable sort; room numbers
are compared as integers. -/
def primaryPool (room_details : List Room) : List Room :=
  List.insertionSort (fun a b : Room => a.roomNo ≤ b.roomNo)
    (room_details.filter (fun r => r.block = Block.bnum 9))

/-- LT pool (line 87): rooms of block LT, sorted descending by exam
capacity. -/
def overflowPool (room_details : List Room) : List Room :=
  List.insertionSort (fun a b : Room => b.examCapacity ≤ a.examCapacity)
    (room_details.filter (fun r => r.block = Block.bLT))

/-- The whole allocation core of main: from the loaded tables and the two
configuration inputs to the ordered seating plan. -/
def runBatch (student_records : List (String × String)) (schedule : List ScheduleRow)
    (room_details : List Room) (arrangement_mode : String) (seat_margin : Int) :
    List Assignment :=
  (runSessions student_records (normalize_mode arrangement_mode) seat_margin
    (primaryPool room_details) (overflowPool room_details)
    schedule (initLedger student_records)).1

/-- Concatenation, in emission order, of the seated-identifier lists of a
course's seating-plan rows. -/
def seatedFor (c : String) : List Assignment → List String
  | [] => []
  | a :: rest => (if a.course_code = c then a.students else []) ++ seatedFor c rest

/-- Sum of the Allocated_Students fields of a course's seating-plan
rows. -/
def allocatedSumFor (c : String) : List Assignment → Int
  | [] => 0
  | a :: rest => (if a.course_code = c then a.allocated_students else 0) + allocatedSumFor c rest

instance totalByRoomNo : IsTotal Room (fun a b : Room => a.roomNo ≤ b.roomNo) :=
  ⟨fun a b => Nat.le_total a.roomNo b.roomNo⟩

instance transByRoomNo : IsTrans Room (fun a b : Room => a.roomNo ≤ b.roomNo) :=
  ⟨fun _ _ _ h h2 => Nat.le_trans h h2⟩

instance totalByCapacityDesc : IsTotal Room (fun a b : Room => b.examCapacity ≤ a.examCapacity) :=
  ⟨fun a b => Nat.le_total b.examCapacity a.examCapacity⟩

instance transByCapacityDesc : IsTrans Room (fun a b : Room => b.examCapacity ≤ a.examCapacity) :=
  ⟨fun _ _ _ h h2 => Nat.le_trans h2 h⟩

/-- Concrete batch input: course A with five students and course B with
two, both active in the single Morning session, one primary room of raw
capacity 4 (dense mode, margin 0, usable capacity 4). -/
def recsA : List (String × String) :=
  (List.range 5).map (fun i => ("A", "a" ++ toString i)) ++
  (List.range 2).map (fun i => ("B", "b" ++ toString i))

def schedA : List ScheduleRow := [⟨"d1", some ("A; B"), none⟩]

def roomsA : List Room := [⟨Block.bnum 9, 201, 4⟩]

/-- Concrete batch input for the scenario of spec section 8: enrollments
5 (course S) and 50 (course L) in one session, a single primary room of
raw capacity 40, dense mode, margin 0. -/
def recsB : List (String × String) :=
  (List.range 50).map (fun i => ("L", "l" ++ toString i)) ++
  (List.range 5).map (fun i => ("S", "s" ++ toString i))

def schedB : List ScheduleRow := [⟨"2024-11-01", some ("S; L"), none⟩]

def roomsB : List Room := [⟨Block.bnum 9, 101, 40⟩]

/-- Concrete batch input: one course of three students scheduled in the
Morning sessions of two different dates; one primary room of capacity
10, dense mode, margin 0.  The second session allocates the course its
full static enrollment count again, with an empty roster left. -/
def recsC : List (String × String) := [("A", "r1"), ("A", "r2"), ("A", "r3")]

def schedC : List ScheduleRow := [⟨"d1", some ("A"), none⟩, ⟨"d2", some ("A"), none⟩]

def roomsC : List Room := [⟨Block.bnum 9, 101, 10⟩]

/-- Concrete batch input: one course of three students, one primary room
of raw capacity 1, dense mode with margin 2, so the room's computed
usable capacity is 0 and a zero-count allocation record is produced and
emitted. -/
def recsD : List (String × String) := [("A", "x1"), ("A", "x2"), ("A", "x3")]

def schedD : List ScheduleRow := [⟨"d1", some ("A"), none⟩]

def roomsD : List Room := [⟨Block.bnum 9, 301, 1⟩]

/-
Theorems.  First the bridge between compute_max_capacity and the value
used inside the allocation loops, then general lemmas about the
embedding, then the claim theorems.
-/

theorem compute_max_capacity_valid (mode : Mode) (s : Nat) (m : Int) :
    compute_max_capacity s mode.str m = PyOutcome.ret (usable_capacity mode s m) := by
  cases mode <;> rfl

theorem usable_capacity_nonneg (mode : Mode) (s : Nat) (m : Int) :
    0 ≤ usable_capacity mode s m := by
  cases mode
  · exact le_max_left 0 _
  · exact le_trans (by decide) (le_max_left 1 _)

/-- C6: for every non-negative room size s and integer margin m,
compute_max_capacity returns max(0, s - m) in dense mode and
max(1, s // 2 - m) in sparse mode; the sparse result is always at least
1, while dense mode can return 0 (witnessed at s = 0, m = 0). -/
theorem claim_C6 (s : Nat) (m : Int) :
    compute_max_capacity s ("dense") m = PyOutcome.ret (max 0 ((s : Int) - m)) ∧
    compute_max_capacity s ("sparse") m = PyOutcome.ret (max 1 (((s / 2 : Nat) : Int) - m)) ∧
    1 ≤ max 1 (((s / 2 : Nat) : Int) - m) ∧
    compute_max_capacity 0 ("dense") 0 = PyOutcome.ret 0 :=
  ⟨rfl, rfl, le_max_left 1 _, rfl⟩

/-- C7 counterexample: called with the unrecognized mode grid,
compute_max_capacity returns the implicit None of the if/elif
fall-through; it does not raise InvalidModeError (no such exception
exists anywhere in the source), so the claim is false as stated. -/
theorem claim_C7_counterexample :
    compute_max_capacity 10 ("grid") 0 = PyOutcome.retNone ∧
    compute_max_capacity 10 ("grid") 0 ≠ PyOutcome.raise ("InvalidModeError") :=
  ⟨rfl, by decide⟩

/-- C7 amended: for any mode other than the two recognized values dense
and sparse, compute_max_capacity falls through its if/elif and returns
None; it raises nothing (main defaults unrecognized input to dense before
this function is ever invoked). -/
theorem claim_C7_amended (mode : String) (h1 : mode ≠ "dense") (h2 : mode ≠ "sparse")
    (s : Nat) (m : Int) :
    compute_max_capacity s mode m = PyOutcome.retNone := by
  simp [compute_max_capacity, h1, h2]

/-- C7 amended, witnessed at the concrete mode grid. -/
theorem claim_C7_amended_witness :
    ("grid" : String) ≠ "dense" ∧ ("grid" : String) ≠ "sparse" ∧
    compute_max_capacity 7 ("grid") 3 = PyOutcome.retNone :=
  ⟨by decide, by decide, claim_C7_amended ("grid") (by decide) (by decide) 7 3⟩

/-- C1 counterexample: in the batch on recsA/schedA/roomsA the sole room
201 (raw capacity 4, usable capacity 4) receives 4 seats for course A
and then 2 more seats for course B in the very same session, 6 seats in
total: allocations are never subtracted from a room, so the claimed
monotonically decreasing remaining-capacity pool does not exist and
capacity consumed by one course is handed out again to the next. -/
theorem claim_C1_counterexample :
    (((runBatch recsA schedA roomsA ("dense") 0).filter (fun a => a.room = 201)).map
        (fun a => a.allocated_students)).sum = 6 ∧
    usable_capacity Mode.dense 4 0 = 4 ∧
    ¬ (((runBatch recsA schedA roomsA ("dense") 0).filter (fun a => a.room = 201)).map
        (fun a => a.allocated_students)).sum ≤ usable_capacity Mode.dense 4 0 :=
  ⟨by decide, by decide, by decide⟩

/-- C2 counterexample: in the exact scenario of the claim (enrollments 5
and 50, one primary room of capacity 40, dense, margin 0) the 50-student
course L is processed first and is allocated 40 seats, but the 5-student
course S is then allocated 5 seats — not the 0 seats that remain after
L's allocation — because the room's capacity is recomputed in full for
every course. -/
theorem claim_C2_counterexample :
    (runBatch recsB schedB roomsB ("dense") 0).map (fun a => (a.course_code, a.allocated_students)) =
      [("L", 40), ("S", 5)] ∧ ((5 : Int) ≠ 0) :=
  ⟨by decide, by decide⟩

/-- C2 amended: the 50-student course is processed first and takes the
room's full usable capacity (40 seats); the 5-student course is then
allocated all 5 of its students out of the room's full, undiminished
usable capacity of 40 — room capacity is not decremented between
courses. -/
theorem claim_C2_amended :
    runBatch recsB schedB roomsB ("dense") 0 =
      [⟨"2024-11-01", "Morning", "L", 101, 40, (List.range 40).map (fun i => "l" ++ toString i)⟩,
       ⟨"2024-11-01", "Morning", "S", 101, 5, (List.range 5).map (fun i => "s" ++ toString i)⟩] := by
  decide

/-- C3 counterexample: course A has 3 enrolled students but appears in
the Morning session of two dates; each session allocates it its full
static enrollment count, so the Allocated_Students fields over the batch
sum to 6 > 3. -/
theorem claim_C3_counterexample :
    allocatedSumFor ("A") (runBatch recsC schedC roomsC ("dense") 0) = 6 ∧
    countEnrolled recsC ("A") = 3 ∧
    ¬ allocatedSumFor ("A") (runBatch recsC schedC roomsC ("dense") 0) ≤
        (countEnrolled recsC ("A") : Int) :=
  ⟨by decide, by decide, by decide⟩

/-- C5 counterexample: course A's 3 students are all seated in the first
session, so its pending count at the start of the second session is 0,
yet the second session still ranks and allocates it with count 3 (the
static enrollment-table count) and emits an Assignment with
Allocated_Students = 3 and an empty seated list. -/
theorem claim_C5_counterexample :
    ((runBatch recsC schedC roomsC ("dense") 0).filter (fun a => a.date = "d2")).map
        (fun a => (a.allocated_students, a.students)) = [((3 : Int), ([] : List String))] ∧
    ((3 : Int) ≠ 0) :=
  ⟨by decide, by decide⟩

/-- C8 counterexample: with dense mode and margin 2, a room of raw
capacity 1 has usable capacity 0; the allocation loop still appends a
record with count 0 for course A (its 3 students all remain pending) and
the emission loop emits the corresponding Assignment, whose seated count
0 is not strictly positive. -/
theorem claim_C8_counterexample :
    runBatch recsD schedD roomsD ("dense") 2 = [⟨"d1", "Morning", "A", 301, 0, []⟩] ∧
    ¬ (0 : Int) < 0 :=
  ⟨by decide, by decide⟩

theorem seatedFor_append (c : String) (l1 l2 : List Assignment) :
    seatedFor c (l1 ++ l2) = seatedFor c l1 ++ seatedFor c l2 := by
  induction l1 with
  | nil => simp [seatedFor]
  | cons a rest ih => simp [seatedFor, ih, List.append_assoc]

theorem ledgerLookup_update_self (c : String) (k : Nat) :
    ∀ L : Ledger, ledgerLookup c (ledgerUpdate c k L) = (ledgerLookup c L).map (fun l => l.drop k) := by
  intro L
  induction L with
  | nil => rfl
  | cons e rest ih =>
    by_cases h : e.1 = c
    · simp [ledgerUpdate, ledgerLookup, h] at ih ⊢
    · simp only [ledgerUpdate, List.map_cons, if_neg h] at ih ⊢
      simp [ledgerLookup, h, ih]

theorem ledgerLookup_update_other (c c0 : String) (k : Nat) (hne : c ≠ c0) :
    ∀ L : Ledger, ledgerLookup c (ledgerUpdate c0 k L) = ledgerLookup c L := by
  have hc0c : ¬ c0 = c := fun hh => hne hh.symm
  intro L
  induction L with
  | nil => rfl
  | cons e rest ih =>
    by_cases h0 : e.1 = c0
    · have h1 : ¬ e.1 = c := fun hh => hc0c (h0.symm.trans hh)
      simp only [ledgerUpdate] at ih
      simp [ledgerUpdate, ledgerLookup, h0, h1, hc0c, ih]
    · by_cases h : e.1 = c
      · simp [ledgerUpdate, ledgerLookup, h0, h, hne]
      · simp only [ledgerUpdate] at ih
        simp [ledgerUpdate, ledgerLookup, h0, h, ih]

theorem emitPlan_seated (d s c : String) :
    ∀ (plan : List AllocRec) (L : Ledger),
      seatedFor c (emitPlan d s plan L).1 ++ rosterOf (emitPlan d s plan L).2 c = rosterOf L c := by
  intro plan
  induction plan with
  | nil => intro L; simp [emitPlan, seatedFor]
  | cons rec rest ih =>
    intro L
    cases hL : ledgerLookup rec.course_code L with
    | none =>
      simp only [emitPlan, hL]
      exact ih L
    | some roster =>
      simp only [emitPlan, hL, seatedFor]
      by_cases hc : rec.course_code = c
      · subst hc
        simp only [if_pos rfl, List.append_assoc]
        rw [ih (ledgerUpdate rec.course_code rec.allocated.toNat L)]
        have : rosterOf (ledgerUpdate rec.course_code rec.allocated.toNat L) rec.course_code =
            roster.drop rec.allocated.toNat := by
          simp [rosterOf, ledgerLookup_update_self, hL]
        rw [this]
        simp [rosterOf, hL]
      · simp only [if_neg hc, List.nil_append]
        rw [ih (ledgerUpdate rec.course_code rec.allocated.toNat L)]
        simp [rosterOf, ledgerLookup_update_other c rec.course_code _ (fun hh => hc hh.symm)]

theorem processSession_seated (enroll : List (String × String)) (mode : Mode) (margin : Int)
    (block9 lt : List Room) (d s : String) (cell : Option String) (c : String) (L : Ledger) :
    seatedFor c (processSession enroll mode margin block9 lt d s cell L).1 ++
      rosterOf (processSession enroll mode margin block9 lt d s cell L).2 c = rosterOf L c := by
  cases cell with
  | none => simp [processSession, seatedFor]
  | some str => exact emitPlan_seated d s c _ L

theorem runSessions_seated (enroll : List (String × String)) (mode : Mode) (margin : Int)
    (block9 lt : List Room) (c : String) :
    ∀ (rows : List ScheduleRow) (L : Ledger),
      seatedFor c (runSessions enroll mode margin block9 lt rows L).1 ++
        rosterOf (runSessions enroll mode margin block9 lt rows L).2 c = rosterOf L c := by
  intro rows
  induction rows with
  | nil => intro L; simp [runSessions, seatedFor]
  | cons row rest ih =>
    intro L
    simp only [runSessions, seatedFor_append, List.append_assoc]
    rw [ih]
    rw [processSession_seated enroll mode margin block9 lt row.date ("Evening") row.evening c]
    rw [processSession_seated enroll mode margin block9 lt row.date ("Morning") row.morning c]

theorem mem_dedupFirstAux (x : String) :
    ∀ (l seen : List String), x ∈ dedupFirstAux seen l ↔ x ∈ l ∧ x ∉ seen := by
  intro l
  induction l with
  | nil => intro seen; simp [dedupFirstAux]
  | cons c cs ih =>
    intro seen
    by_cases h : c ∈ seen
    · simp only [dedupFirstAux, if_pos h, ih, List.mem_cons]
      constructor
      · rintro ⟨h1, h2⟩; exact ⟨Or.inr h1, h2⟩
      · rintro ⟨h1, h2⟩
        rcases h1 with h1 | h1
        · exact absurd h (h1 ▸ h2)
        · exact ⟨h1, h2⟩
    · simp only [dedupFirstAux, if_neg h, List.mem_cons, ih]
      constructor
      · rintro (rfl | ⟨h1, h2⟩)
        · exact ⟨Or.inl rfl, h⟩
        · exact ⟨Or.inr h1, fun hh => h2 (Or.inr hh)⟩
      · rintro ⟨h1 | h1, h2⟩
        · exact Or.inl h1
        · by_cases h3 : x = c
          · exact Or.inl h3
          · exact Or.inr ⟨h1, fun hh => hh.elim h3 h2⟩

theorem mem_courseCodes (recs : List (String × String)) (c : String) :
    c ∈ courseCodes recs ↔ c ∈ recs.map (fun r => r.1) := by
  simp [courseCodes, dedupFirst, mem_dedupFirstAux]

theorem filter_course_eq_nil (recs : List (String × String)) (c : String)
    (h : c ∉ courseCodes recs) : recs.filter (fun r => r.1 = c) = [] := by
  rw [mem_courseCodes] at h
  rw [List.filter_eq_nil_iff]
  intro r hr
  simp only [decide_eq_true_eq]
  exact fun hh => h (List.mem_map.mpr ⟨r, hr, hh⟩)

theorem ledgerLookup_map_pairs (f : String → List String) (c : String) :
    ∀ cs : List String,
      ledgerLookup c (cs.map (fun x => (x, f x))) = if c ∈ cs then some (f c) else none := by
  intro cs
  induction cs with
  | nil => simp [ledgerLookup]
  | cons x xs ih =>
    by_cases h : x = c
    · subst h; simp [ledgerLookup, List.mem_cons]
    · have h2 : ¬ c = x := fun hh => h hh.symm
      by_cases h3 : c ∈ xs <;> simp [ledgerLookup, List.mem_cons, h, h2, h3, ih]

theorem rosterOf_initLedger (recs : List (String × String)) (c : String) :
    rosterOf (initLedger recs) c = courseRoster recs c := by
  unfold rosterOf initLedger
  rw [ledgerLookup_map_pairs]
  by_cases h : c ∈ courseCodes recs
  · simp [h]
  · simp [h, courseRoster, filter_course_eq_nil recs c h]

theorem runBatch_seated (recs : List (String × String)) (sched : List ScheduleRow)
    (rooms : List Room) (modeStr : String) (margin : Int) (c : String) :
    seatedFor c (runBatch recs sched rooms modeStr margin) ++
      rosterOf (runSessions recs (normalize_mode modeStr) margin (primaryPool rooms)
        (overflowPool rooms) sched (initLedger recs)).2 c = courseRoster recs c := by
  rw [← rosterOf_initLedger recs c]
  exact runSessions_seated recs (normalize_mode modeStr) margin (primaryPool rooms)
    (overflowPool rooms) c sched (initLedger recs)

/-- C4: the concatenation, in emission order, of the seated-identifier
lists across all Assignments of a course is a prefix of that course's
original roster in original enrollment order. -/
theorem claim_C4 (recs : List (String × String)) (sched : List ScheduleRow)
    (rooms : List Room) (modeStr : String) (margin : Int) (c : String) :
    ∃ rest, seatedFor c (runBatch recs sched rooms modeStr margin) ++ rest = courseRoster recs c :=
  ⟨_, runBatch_seated recs sched rooms modeStr margin c⟩

/-- C3 amended: the number of actually seated identifiers across all
Assignments of a course never exceeds the course's enrollment count. -/
theorem claim_C3_amended (recs : List (String × String)) (sched : List ScheduleRow)
    (rooms : List Room) (modeStr : String) (margin : Int) (c : String) :
    (seatedFor c (runBatch recs sched rooms modeStr margin)).length ≤ countEnrolled recs c := by
  have h := congrArg List.length (runBatch_seated recs sched rooms modeStr margin c)
  rw [List.length_append] at h
  have h2 : (courseRoster recs c).length = countEnrolled recs c := by
    simp [courseRoster, countEnrolled]
  omega

theorem allocRooms_nonpos (c : String) (mode : Mode) (margin : Int) (rooms : List Room)
    (rem : Int) (h : rem ≤ 0) : (allocRooms c mode margin rooms rem).1 = [] := by
  cases rooms with
  | nil => rfl
  | cons r rs => simp [allocRooms, h]

theorem allocRooms_snd_pos (c : String) (mode : Mode) (margin : Int) :
    ∀ (rooms : List Room) (rem : Int), 0 < (allocRooms c mode margin rooms rem).2 →
      ((allocRooms c mode margin rooms rem).1).length = rooms.length := by
  intro rooms
  induction rooms with
  | nil => intro rem h; rfl
  | cons r rs ih =>
    intro rem h
    by_cases hr : rem ≤ 0
    · exfalso
      simp [allocRooms, hr] at h
      omega
    · simp only [allocRooms, if_neg hr] at h ⊢
      simp only [List.length_cons]
      rw [ih _ h]

theorem allocRooms_map_room (c : String) (mode : Mode) (margin : Int) :
    ∀ (rooms : List Room) (rem : Int),
      ((allocRooms c mode margin rooms rem).1).length ≤ rooms.length ∧
      ((allocRooms c mode margin rooms rem).1).map (fun x => x.room) =
        (rooms.take (((allocRooms c mode margin rooms rem).1).length)).map (fun r => r.roomNo) := by
  intro rooms
  induction rooms with
  | nil => intro rem; exact ⟨Nat.le_refl 0, rfl⟩
  | cons r rs ih =>
    intro rem
    by_cases hr : rem ≤ 0
    · simp [allocRooms, hr]
    · obtain ⟨ih1, ih2⟩ := ih (rem - min (usable_capacity mode r.examCapacity margin) rem)
      constructor
      · simp only [allocRooms, if_neg hr, List.length_cons]
        omega
      · simp only [allocRooms, if_neg hr, List.map_cons, List.length_cons, List.take_succ_cons]
        rw [ih2]

theorem allocRooms_spec (c : String) (mode : Mode) (margin : Int) :
    ∀ (rooms : List Room) (rem : Int) (rec : AllocRec),
      rec ∈ (allocRooms c mode margin rooms rem).1 →
      rec.course_code = c ∧ ∃ r, r ∈ rooms ∧ rec.room = r.roomNo ∧
        0 ≤ rec.allocated ∧ rec.allocated ≤ usable_capacity mode r.examCapacity margin ∧
        (rec.allocated = 0 ↔ usable_capacity mode r.examCapacity margin = 0) := by
  intro rooms
  induction rooms with
  | nil => intro rem rec h; simp [allocRooms] at h
  | cons r rs ih =>
    intro rem rec h
    by_cases hr : rem ≤ 0
    · simp [allocRooms, hr] at h
    · simp only [allocRooms, if_neg hr, List.mem_cons] at h
      rcases h with h | h
      · subst h
        have hrem : 0 < rem := by omega
        have hcap : 0 ≤ usable_capacity mode r.examCapacity margin :=
          usable_capacity_nonneg mode r.examCapacity margin
        refine ⟨rfl, r, List.mem_cons_self r rs, rfl, ?_, ?_, ?_⟩
        · exact le_min hcap (le_of_lt hrem)
        · exact min_le_left _ _
        · constructor
          · intro h0
            by_cases hh : usable_capacity mode r.examCapacity margin ≤ rem
            · simp only [min_def, if_pos hh] at h0
              exact h0
            · simp only [min_def, if_neg hh] at h0
              omega
          · intro h0
            simp only [min_def, h0]
            rw [if_pos (le_of_lt hrem)]
      · obtain ⟨h1, rr, hrr, hs⟩ := ih _ rec h
        exact ⟨h1, rr, List.mem_cons_of_mem r hrr, hs⟩

theorem allocCourse_spec (c : String) (mode : Mode) (margin : Int) (block9 lt : List Room)
    (n : Int) (rec : AllocRec) (h : rec ∈ allocCourse c mode margin block9 lt n) :
    rec.course_code = c ∧ ∃ r, (r ∈ block9 ∨ r ∈ lt) ∧ rec.room = r.roomNo ∧
      0 ≤ rec.allocated ∧ rec.allocated ≤ usable_capacity mode r.examCapacity margin ∧
      (rec.allocated = 0 ↔ usable_capacity mode r.examCapacity margin = 0) := by
  simp only [allocCourse, List.mem_append] at h
  rcases h with h | h
  · obtain ⟨h1, r, hr, hs⟩ := allocRooms_spec c mode margin block9 n rec h
    exact ⟨h1, r, Or.inl hr, hs⟩
  · obtain ⟨h1, r, hr, hs⟩ := allocRooms_spec c mode margin lt _ rec h
    exact ⟨h1, r, Or.inr hr, hs⟩

theorem plansFor_mem (mode : Mode) (margin : Int) (block9 lt : List Room) :
    ∀ (counts : List (String × Int)) (rec : AllocRec),
      rec ∈ plansFor mode margin block9 lt counts →
      ∃ c n, rec ∈ allocCourse c mode margin block9 lt n := by
  intro counts
  induction counts with
  | nil => intro rec h; simp [plansFor] at h
  | cons p rest ih =>
    intro rec h
    simp only [plansFor, List.mem_append] at h
    rcases h with h | h
    · exact ⟨p.1, p.2, h⟩
    · exact ih rec h

theorem emitPlan_mem (d s : String) :
    ∀ (plan : List AllocRec) (L : Ledger) (a : Assignment), a ∈ (emitPlan d s plan L).1 →
      ∃ rec, rec ∈ plan ∧ a.course_code = rec.course_code ∧ a.room = rec.room ∧
        a.allocated_students = rec.allocated := by
  intro plan
  induction plan with
  | nil => intro L a h; simp [emitPlan] at h
  | cons rec rest ih =>
    intro L a h
    cases hL : ledgerLookup rec.course_code L with
    | none =>
      simp only [emitPlan, hL] at h
      obtain ⟨rec2, h1, h2⟩ := ih _ a h
      exact ⟨rec2, List.mem_cons_of_mem rec h1, h2⟩
    | some roster =>
      simp only [emitPlan, hL, List.mem_cons] at h
      rcases h with h | h
      · subst h
        exact ⟨rec, List.mem_cons_self rec rest, rfl, rfl, rfl⟩
      · obtain ⟨rec2, h1, h2⟩ := ih _ a h
        exact ⟨rec2, List.mem_cons_of_mem rec h1, h2⟩

theorem processSession_mem (enroll : List (String × String)) (mode : Mode) (margin : Int)
    (block9 lt : List Room) (d s : String) (cell : Option String) (L : Ledger) (a : Assignment)
    (h : a ∈ (processSession enroll mode margin block9 lt d s cell L).1) :
    ∃ rec, (∃ c n, rec ∈ allocCourse c mode margin block9 lt n) ∧
      a.course_code = rec.course_code ∧ a.room = rec.room ∧
      a.allocated_students = rec.allocated := by
  cases cell with
  | none => simp [processSession] at h
  | some str =>
    simp only [processSession] at h
    obtain ⟨rec, h1, h2⟩ := emitPlan_mem d s _ L a h
    simp only [sessionPlan, sessionAllocationPlan] at h1
    obtain ⟨c, n, h3⟩ := plansFor_mem mode margin block9 lt _ rec h1
    exact ⟨rec, ⟨c, n, h3⟩, h2⟩

theorem runSessions_mem (enroll : List (String × String)) (mode : Mode) (margin : Int)
    (block9 lt : List Room) :
    ∀ (rows : List ScheduleRow) (L : Ledger) (a : Assignment),
      a ∈ (runSessions enroll mode margin block9 lt rows L).1 →
      ∃ rec, (∃ c n, rec ∈ allocCourse c mode margin block9 lt n) ∧
        a.course_code = rec.course_code ∧ a.room = rec.room ∧
        a.allocated_students = rec.allocated := by
  intro rows
  induction rows with
  | nil => intro L a h; simp [runSessions] at h
  | cons row rest ih =>
    intro L a h
    simp only [runSessions, List.mem_append] at h
    rcases h with (h | h) | h
    · exact processSession_mem enroll mode margin block9 lt row.date ("Morning") row.morning _ a h
    · exact processSession_mem enroll mode margin block9 lt row.date ("Evening") row.evening _ a h
    · exact ih _ a h

theorem primaryPool_sub (rooms : List Room) (r : Room) (h : r ∈ primaryPool rooms) :
    r ∈ rooms := by
  unfold primaryPool at h
  have h2 := (List.perm_insertionSort (fun a b : Room => a.roomNo ≤ b.roomNo) _).mem_iff.mp h
  exact List.mem_of_mem_filter h2

theorem overflowPool_sub (rooms : List Room) (r : Room) (h : r ∈ overflowPool rooms) :
    r ∈ rooms := by
  unfold overflowPool at h
  have h2 := (List.perm_insertionSort (fun a b : Room => b.examCapacity ≤ a.examCapacity) _).mem_iff.mp h
  exact List.mem_of_mem_filter h2

theorem runBatch_assignment_spec (recs : List (String × String)) (sched : List ScheduleRow)
    (rooms : List Room) (modeStr : String) (margin : Int) (a : Assignment)
    (h : a ∈ runBatch recs sched rooms modeStr margin) :
    ∃ r, r ∈ rooms ∧ a.room = r.roomNo ∧ 0 ≤ a.allocated_students ∧
      a.allocated_students ≤ usable_capacity (normalize_mode modeStr) r.examCapacity margin ∧
      (a.allocated_students = 0 ↔
        usable_capacity (normalize_mode modeStr) r.examCapacity margin = 0) := by
  unfold runBatch at h
  obtain ⟨rec, ⟨c, n, hrec⟩, h1, h2, h3⟩ := runSessions_mem recs _ margin _ _ sched _ a h
  obtain ⟨hc, r, hr, hroom, hs1, hs2, hs3⟩ := allocCourse_spec c _ margin _ _ n rec hrec
  refine ⟨r, ?_, ?_, ?_, ?_, ?_⟩
  · rcases hr with hr | hr
    · exact primaryPool_sub rooms r hr
    · exact overflowPool_sub rooms r hr
  · rw [h2, hroom]
  · rw [h3]; exact hs1
  · rw [h3]; exact hs2
  · rw [h3]; exact hs3

/-- C9: for any room catalog, course and demand, the allocation records
of a course list a prefix of the primary pool (Block 9, ascending room
number) followed by a prefix of the overflow pool (LT, descending raw
capacity), and an overflow room is used (its prefix is nonempty) only
when every single primary room has already been consulted. -/
theorem claim_C9 (mode : Mode) (margin : Int) (rooms : List Room) (c : String) (n : Int) :
    (∃ k1 k2, k1 ≤ (primaryPool rooms).length ∧ k2 ≤ (overflowPool rooms).length ∧
      (allocCourse c mode margin (primaryPool rooms) (overflowPool rooms) n).map (fun x => x.room) =
        (((primaryPool rooms).take k1).map (fun r => r.roomNo)) ++
        (((overflowPool rooms).take k2).map (fun r => r.roomNo)) ∧
      (k2 = 0 ∨ k1 = (primaryPool rooms).length)) ∧
    List.Sorted (fun a b : Room => a.roomNo ≤ b.roomNo) (primaryPool rooms) ∧
    List.Sorted (fun a b : Room => b.examCapacity ≤ a.examCapacity) (overflowPool rooms) := by
  refine ⟨?_, ?_, ?_⟩
  · refine ⟨((allocRooms c mode margin (primaryPool rooms) n).1).length,
      ((allocRooms c mode margin (overflowPool rooms)
        (allocRooms c mode margin (primaryPool rooms) n).2).1).length, ?_, ?_, ?_, ?_⟩
    · exact (allocRooms_map_room c mode margin (primaryPool rooms) n).1
    · exact (allocRooms_map_room c mode margin (overflowPool rooms) _).1
    · simp only [allocCourse, List.map_append]
      rw [(allocRooms_map_room c mode margin (primaryPool rooms) n).2,
        (allocRooms_map_room c mode margin (overflowPool rooms) _).2]
    · by_cases hk2 : ((allocRooms c mode margin (overflowPool rooms)
          (allocRooms c mode margin (primaryPool rooms) n).2).1).length = 0
      · exact Or.inl hk2
      · refine Or.inr ?_
        have hne : (allocRooms c mode margin (overflowPool rooms)
            (allocRooms c mode margin (primaryPool rooms) n).2).1 ≠ [] := by
          intro hh
          rw [hh] at hk2
          simp at hk2
        have hpos : 0 < (allocRooms c mode margin (primaryPool rooms) n).2 := by
          by_contra hng
          push_neg at hng
          exact hne (allocRooms_nonpos c mode margin (overflowPool rooms) _ hng)
        exact allocRooms_snd_pos c mode margin (primaryPool rooms) n hpos
  · unfold primaryPool
    exact List.sorted_insertionSort (fun a b : Room => a.roomNo ≤ b.roomNo) _
  · unfold overflowPool
    exact List.sorted_insertionSort (fun a b : Room => b.examCapacity ≤ a.examCapacity) _

/-- C10: every emitted Assignment's seated count is at most the value
compute_max_capacity returns for the room's raw exam capacity under the
batch's (validated) mode and margin. -/
theorem claim_C10 (recs : List (String × String)) (sched : List ScheduleRow)
    (rooms : List Room) (modeStr : String) (margin : Int) (a : Assignment)
    (h : a ∈ runBatch recs sched rooms modeStr margin) :
    ∃ r, r ∈ rooms ∧ a.room = r.roomNo ∧ ∃ cap : Int,
      compute_max_capacity r.examCapacity (normalize_mode modeStr).str margin =
        PyOutcome.ret cap ∧ a.allocated_students ≤ cap := by
  obtain ⟨r, hmem, hroom, h0, hle, hiff⟩ :=
    runBatch_assignment_spec recs sched rooms modeStr margin a h
  exact ⟨r, hmem, hroom, usable_capacity (normalize_mode modeStr) r.examCapacity margin,
    compute_max_capacity_valid (normalize_mode modeStr) r.examCapacity margin, hle⟩

/-- C10, witnessed on the concrete recsA batch: course A's assignment of
4 students to room 201 respects the room's computed capacity 4. -/
theorem claim_C10_witness :
    (⟨"d1", "Morning", "A", 201, 4, ["a0", "a1", "a2", "a3"]⟩ : Assignment) ∈
      runBatch recsA schedA roomsA ("dense") 0 ∧
    ∃ r, r ∈ roomsA ∧ (201 : Nat) = r.roomNo ∧ ∃ cap : Int,
      compute_max_capacity r.examCapacity (normalize_mode ("dense")).str 0 =
        PyOutcome.ret cap ∧ (4 : Int) ≤ cap :=
  ⟨by decide, claim_C10 recsA schedA roomsA ("dense") 0
    ⟨"d1", "Morning", "A", 201, 4, ["a0", "a1", "a2", "a3"]⟩ (by decide)⟩

/-- C8 amended: every emitted Assignment corresponds to a consulted room
of the catalog, and its seated count is zero exactly when that room's
computed usable capacity is zero; in particular every Assignment whose
room has positive usable capacity has a strictly positive count. -/
theorem claim_C8_amended (recs : List (String × String)) (sched : List ScheduleRow)
    (rooms : List Room) (modeStr : String) (margin : Int) (a : Assignment)
    (h : a ∈ runBatch recs sched rooms modeStr margin) :
    ∃ r, r ∈ rooms ∧ a.room = r.roomNo ∧
      (a.allocated_students = 0 ↔
        usable_capacity (normalize_mode modeStr) r.examCapacity margin = 0) := by
  obtain ⟨r, hmem, hroom, h0, hle, hiff⟩ :=
    runBatch_assignment_spec recs sched rooms modeStr margin a h
  exact ⟨r, hmem, hroom, hiff⟩

/-- C8 amended, witnessed on the concrete recsD batch: the zero-count
assignment sits in room 301, whose usable capacity is 0. -/
theorem claim_C8_amended_witness :
    (⟨"d1", "Morning", "A", 301, 0, []⟩ : Assignment) ∈
      runBatch recsD schedD roomsD ("dense") 2 ∧
    ∃ r, r ∈ roomsD ∧ (301 : Nat) = r.roomNo ∧
      ((0 : Int) = 0 ↔ usable_capacity (normalize_mode ("dense")) r.examCapacity 2 = 0) :=
  ⟨by decide, claim_C8_amended recsD schedD roomsD ("dense") 2
    ⟨"d1", "Morning", "A", 301, 0, []⟩ (by decide)⟩

/-- C5 amended: the count used to rank and allocate a session course is
the static enrollment-table row count of that course, never decremented
by earlier seating; for a course with no enrollment rows the filter is
empty and the count is 0 (no error). -/
theorem claim_C5_amended (recs : List (String × String)) (c : String) :
    pendingCount recs c = ((recs.filter (fun r => r.1 = c)).length : Int) := by
  unfold pendingCount countEnrolled
  by_cases h : c ∈ courseCodes recs
  · simp [h]
  · rw [if_neg h, filter_course_eq_nil recs c h]
    rfl

/-- C1 amended: room capacity is not stateful.  For any mode, margin and
room, and any two courses both demanding at least the room's usable
capacity, each course in turn is allocated the full usable capacity of
the same room in the same session, so the total handed out (twice the
usable capacity) exceeds the capacity the room actually has. -/
theorem claim_C1_amended (mode : Mode) (margin : Int) (r : Room) (nA nB : Int)
    (hpos : 0 < usable_capacity mode r.examCapacity margin)
    (hB : usable_capacity mode r.examCapacity margin ≤ nB) (hAB : nB ≤ nA) :
    sessionAllocationPlan mode margin [r] [] [("A", nA), ("B", nB)] =
      [⟨"A", r.roomNo, usable_capacity mode r.examCapacity margin⟩,
       ⟨"B", r.roomNo, usable_capacity mode r.examCapacity margin⟩] ∧
    usable_capacity mode r.examCapacity margin <
      ((sessionAllocationPlan mode margin [r] [] [("A", nA), ("B", nB)]).map
        (fun x => x.allocated)).sum := by
  have hA0 : ¬ nA ≤ 0 := by omega
  have hB0 : ¬ nB ≤ 0 := by omega
  have hminA : min (usable_capacity mode r.examCapacity margin) nA =
      usable_capacity mode r.examCapacity margin := min_eq_left (le_trans hB hAB)
  have hminB : min (usable_capacity mode r.examCapacity margin) nB =
      usable_capacity mode r.examCapacity margin := min_eq_left hB
  have hsort : List.insertionSort (fun a b : String × Int => b.2 ≤ a.2)
      [(("A" : String), nA), ("B", nB)] = [("A", nA), ("B", nB)] := by
    simp [List.insertionSort, List.orderedInsert, hAB]
  have hplan : sessionAllocationPlan mode margin [r] [] [("A", nA), ("B", nB)] =
      [⟨"A", r.roomNo, usable_capacity mode r.examCapacity margin⟩,
       ⟨"B", r.roomNo, usable_capacity mode r.examCapacity margin⟩] := by
    simp only [sessionAllocationPlan, hsort, plansFor, allocCourse, allocRooms,
      if_neg hA0, if_neg hB0]
    simp [hminA, hminB]
  refine ⟨hplan, ?_⟩
  rw [hplan]
  simp only [List.map_cons, List.map_nil, List.sum_cons, List.sum_nil]
  omega

/-- C1 amended, witnessed at capacity 40 and demands 50 and 45: the two
courses receive 40 seats each from the same room in one session. -/
theorem claim_C1_amended_witness :
    sessionAllocationPlan Mode.dense 0 [⟨Block.bnum 9, 101, 40⟩] [] [("A", 50), ("B", 45)] =
      [⟨"A", 101, 40⟩, ⟨"B", 101, 40⟩] ∧
    (40 : Int) <
      ((sessionAllocationPlan Mode.dense 0 [⟨Block.bnum 9, 101, 40⟩] [] [("A", 50), ("B", 45)]).map
        (fun x => x.allocated)).sum :=
  claim_C1_amended Mode.dense 0 ⟨Block.bnum 9, 101, 40⟩ 50 45 (by decide) (by decide) (by decide)
